import Mathlib

/-!
Verification of the quiche `Config` caching layer (`src/doh/config.rs`).

The Rust module provides a `Cache` mapping an optional certificate path
(`Option<String>`) to a weak reference on an `Arc<Mutex<quiche::Config>>`,
with a single keep-alive slot (`latest`) holding a strong reference to the
most recently installed config, and a `garbage_collect` pass that prunes
entries whose strong count has dropped to zero.

The embedding models `Arc`/`Weak` reference counting explicitly: a `World`
holds the strong count of every allocated resource, indexed by allocation
id. A `Config` is a strong handle (one unit of strong count); a
`WeakConfig` is a non-owning reference. The external, fallible quiche
construction work inside `Config::from_cert_path` (protocol setup,
certificate loading) is abstracted as a `Factory` parameter deciding, per
key, whether construction fails; on success a fresh resource with strong
count 1 is allocated, exactly as `Arc::new` does.

`Cache::from_cert_path` is split as in the source: a read-locked probe
(`State.get_config`), the unlocked construction, and the write-locked
section (`Cache.installOrDiscard`) that re-probes and either discards the
freshly built handle in favour of a concurrently installed one, or
installs the new handle (`keep_alive` then map insert). Modelling the
write-locked section as its own function lets theorems quantify over an
arbitrary state at write-lock acquisition, which is how a concurrent
installation between the probe and the write lock is expressed in this
sequential embedding. Lock discipline itself is modelled by an event
trace (`Cache.fetchEvents`) mirroring the source's lock acquisitions.
-/

/-- Cache key: optional certificate directory path (`Option<String>`). -/
abbrev Key := Option String

/-- Strong handle on a constructed quiche config resource, identified by
its allocation id. Models `Config(Arc<Mutex<quiche::Config>>)`. -/
structure Config where
  id : Nat
deriving DecidableEq

/-- Non-owning reference to a config resource. Models
`WeakConfig = Weak<Mutex<quiche::Config>>`. -/
structure WeakConfig where
  id : Nat
deriving DecidableEq

/-- Error produced by the external quiche construction steps
(`quiche::Config::new`, `set_application_protos`,
`load_verify_locations_from_directory`). Its payload is opaque to the
cache. -/
structure ConstructionError where
  code : Nat
deriving DecidableEq

/-- Strong count of the resource stored at index `i`; `0` for indices
never allocated. -/
def getCount : List Nat → Nat → Nat
  | [], _ => 0
  | n :: _, 0 => n
  | _ :: t, i + 1 => getCount t i

/-- Replace the count at index `i`; out-of-range writes are dropped. -/
def setCount : List Nat → Nat → Nat → List Nat
  | [], _, _ => []
  | _ :: t, 0, v => v :: t
  | n :: t, i + 1, v => n :: setCount t i v

/-- The reference-counting heap: strong counts of all allocated
resources, indexed by allocation id. -/
structure World where
  counts : List Nat
deriving DecidableEq

/-- Strong count of resource `i` (the `Arc` strong count). -/
def World.strongCount (w : World) (i : Nat) : Nat :=
  getCount w.counts i

/-- Cloning a strong handle (`Arc::clone` / upgrading a weak reference)
increments the strong count. -/
def World.inc (w : World) (i : Nat) : World :=
  ⟨setCount w.counts i (getCount w.counts i + 1)⟩

/-- Dropping a strong handle decrements the strong count; the resource is
destroyed when the count reaches zero. -/
def World.dec (w : World) (i : Nat) : World :=
  ⟨setCount w.counts i (getCount w.counts i - 1)⟩

/-- Allocate a fresh resource with strong count 1 (`Arc::new`). -/
def World.alloc (w : World) : World × Config :=
  (⟨w.counts ++ [1]⟩, ⟨w.counts.length⟩)

/-- The empty heap: no resource allocated yet. -/
def World.empty : World := ⟨[]⟩

/-- Source `Config::to_weak`: `Arc::downgrade`; no allocation, no count
change. -/
def Config.to_weak (c : Config) : WeakConfig :=
  ⟨c.id⟩

/-- Source `Config::from_weak`: `weak.upgrade().map(Self)`. Upgrading
succeeds exactly when the strong count is positive, and then yields a new
strong handle on the same resource (count incremented). -/
def Config.from_weak (w : World) (wk : WeakConfig) : World × Option Config :=
  if 0 < w.strongCount wk.id then (w.inc wk.id, some ⟨wk.id⟩) else (w, none)

/-- The external construction work, abstracted: for each key, either a
construction error or success. The cache treats it as opaque. -/
def Factory : Type := Key → Option ConstructionError

/-- Source `Config::from_cert_path`: run the external construction steps;
on success wrap the fresh config in a new `Arc` (strong count 1). -/
def Config.from_cert_path (fac : Factory) (w : World) (k : Key) :
    World × Except ConstructionError Config :=
  match fac k with
  | some e => (w, Except.error e)
  | none => ((w.alloc).1, Except.ok (w.alloc).2)

/-- Association-list lookup modelling `HashMap::get`. -/
def findA : List (Key × WeakConfig) → Key → Option WeakConfig
  | [], _ => none
  | (k', v) :: rest, k => if k' = k then some v else findA rest k

/-- Association-list insert modelling `HashMap::insert`: replaces the
entry for the key if present, otherwise appends. -/
def insertA : List (Key × WeakConfig) → Key → WeakConfig → List (Key × WeakConfig)
  | [], k, v => [(k, v)]
  | (k', v') :: rest, k, v =>
      if k' = k then (k, v) :: rest else (k', v') :: insertA rest k v

/-- Source `State`: the map from cert path to weak config, plus the
single keep-alive slot `latest`. -/
structure State where
  path_to_config : List (Key × WeakConfig)
  latest : Option Config
deriving DecidableEq

/-- The empty state (`Cache::new` / `Default`). -/
def State.empty : State := ⟨[], none⟩

/-- Source `State::get_config`:
`self.path_to_config.get(cert_path).and_then(Config::from_weak)`. Returns
the updated heap (an upgrade increments the count) and the upgraded
handle, if any. -/
def State.get_config (w : World) (s : State) (k : Key) : World × Option Config :=
  match findA s.path_to_config k with
  | none => (w, none)
  | some wk => Config.from_weak w wk

/-- Source `State::keep_alive`: `self.latest = Some(config)`. The
incoming handle is moved into the slot; the previous occupant is dropped
(its strong count decremented, destroying it if that was the last
reference). -/
def State.keep_alive (w : World) (s : State) (c : Config) : World × State :=
  (match s.latest with
   | some old => w.dec old.id
   | none => w,
   { s with latest := some c })

/-- Source `State::garbage_collect`:
`self.path_to_config.retain(|_, config| config.strong_count() != 0)`. -/
def State.garbage_collect (w : World) (s : State) : State :=
  { s with path_to_config :=
      s.path_to_config.filter (fun p => w.strongCount p.2.id != 0) }

instance : DecidableEq (Except ConstructionError Config) := fun x y =>
  match x, y with
  | Except.error a, Except.error b => decidable_of_iff (a = b) (by simp)
  | Except.ok a, Except.ok b => decidable_of_iff (a = b) (by simp)
  | Except.error _, Except.ok _ => isFalse (by simp)
  | Except.ok _, Except.error _ => isFalse (by simp)

/-- Result of one `Cache::from_cert_path` call: the heap and cache state
after the call, and the returned `Result<Config>`. -/
structure FetchResult where
  world : World
  state : State
  result : Except ConstructionError Config
deriving DecidableEq

/-- The write-locked section of `Cache::from_cert_path` (source lines
148-159), entered with the freshly built handle `c` (strong count 1 from
construction). Re-runs `get_config`; on a hit the handle just built is
dropped and the existing one returned; otherwise `keep_alive` receives a
clone of `c`, its weak reference is inserted, and `c` is returned. The
state argument is whatever the state is when the write lock is acquired,
which in a concurrent run may differ from the one probed earlier. -/
def Cache.installOrDiscard (w : World) (s : State) (k : Key) (c : Config) :
    FetchResult :=
  match State.get_config w s k with
  | (w1, some existing) => ⟨w1.dec c.id, s, Except.ok existing⟩
  | (_, none) =>
      let w2 := w.inc c.id
      let p := State.keep_alive w2 s c
      ⟨p.1, { p.2 with path_to_config := insertA p.2.path_to_config k c.to_weak },
        Except.ok c⟩

/-- Source `Cache::from_cert_path`: read-locked probe; on a hit return
immediately. On a miss, construct unlocked; propagate factory errors;
otherwise enter the write-locked install-or-discard section. In this
sequential embedding the write-locked section sees the same state that
was probed. -/
def Cache.from_cert_path (fac : Factory) (w : World) (s : State) (k : Key) :
    FetchResult :=
  match State.get_config w s k with
  | (w1, some c) => ⟨w1, s, Except.ok c⟩
  | (_, none) =>
      match Config.from_cert_path fac w k with
      | (w1, Except.error e) => ⟨w1, s, Except.error e⟩
      | (w2, Except.ok c) => Cache.installOrDiscard w2 s k c

/-- Source `Cache::garbage_collect`: take the write lock, delegate to
`State::garbage_collect`. -/
def Cache.garbage_collect (w : World) (s : State) : State :=
  State.garbage_collect w s

/-- Dropping an externally held config handle. -/
def Config.drop (w : World) (c : Config) : World :=
  w.dec c.id

/-- Lock events performed by one `Cache::from_cert_path` call. -/
inductive LockEv where
  | readAcq
  | readRel
  | writeAcq
  | writeRel
  | factoryCall
deriving DecidableEq

/-- Number of cache locks held after a sequence of events. -/
def locksHeld (l : List LockEv) : Nat :=
  l.foldl
    (fun n e =>
      match e with
      | LockEv.readAcq => n + 1
      | LockEv.writeAcq => n + 1
      | LockEv.readRel => n - 1
      | LockEv.writeRel => n - 1
      | LockEv.factoryCall => n)
    0

/-- Lock-event trace of `Cache::from_cert_path`, mirroring the source:
the read guard is a temporary of the probe statement and is dropped when
that statement finishes; the factory call happens next, with no lock
held; only on factory success is the write lock taken for the install
section. -/
def Cache.fetchEvents (fac : Factory) (w : World) (s : State) (k : Key) :
    List LockEv :=
  match State.get_config w s k with
  | (_, some _) => [LockEv.readAcq, LockEv.readRel]
  | (_, none) =>
      match fac k with
      | some _ => [LockEv.readAcq, LockEv.readRel, LockEv.factoryCall]
      | none =>
          [LockEv.readAcq, LockEv.readRel, LockEv.factoryCall,
            LockEv.writeAcq, LockEv.writeRel]

/-- A factory on which construction always succeeds, used for the
concrete scenarios below (mirrors the unit tests, which construct real
configs that succeed). -/
def facOk : Factory := fun _ => none

/-- Scenario step 1 (test `lifetimes`): fetch `None` on a fresh cache. -/
def run1 : FetchResult :=
  Cache.from_cert_path facOk World.empty State.empty none

/-- Scenario step 2: fetch `Some "a"`. -/
def run2 : FetchResult :=
  Cache.from_cert_path facOk run1.world run1.state (some "a")

/-- Scenario step 3: fetch `Some "b"`. -/
def run3 : FetchResult :=
  Cache.from_cert_path facOk run2.world run2.state (some "b")

/-- Scenario: after the three fetches, fetch `None` again (a hit) while
all three handles are still held. -/
def runHitNone : FetchResult :=
  Cache.from_cert_path facOk run3.world run3.state none

/-- Scenario: drop the handle returned for `None` (resource 0). -/
def runDropWorld : World :=
  Config.drop run3.world ⟨0⟩

/-- Scenario: garbage-collect after the `None` handle was dropped. -/
def runGC : State :=
  Cache.garbage_collect runDropWorld run3.state

/-! Helper lemmas about the reference-counting heap. -/

theorem length_setCount (l : List Nat) (i v : Nat) :
    (setCount l i v).length = l.length := by
  induction l generalizing i with
  | nil => rfl
  | cons n t ih => cases i <;> simp [setCount, ih]

theorem getCount_pos_lt {l : List Nat} {i : Nat} (h : 0 < getCount l i) :
    i < l.length := by
  induction l generalizing i with
  | nil => simp [getCount] at h
  | cons n t ih =>
    cases i with
    | zero => simp
    | succ j =>
        have hj : 0 < getCount t j := h
        exact Nat.succ_lt_succ (ih hj)

theorem getCount_setCount_self {l : List Nat} {i : Nat} (v : Nat)
    (h : i < l.length) : getCount (setCount l i v) i = v := by
  induction l generalizing i with
  | nil => simp at h
  | cons n t ih =>
    cases i with
    | zero => rfl
    | succ j => exact ih (Nat.lt_of_succ_lt_succ h)

theorem getCount_setCount_ne {l : List Nat} {i j : Nat} (v : Nat) (h : i ≠ j) :
    getCount (setCount l j v) i = getCount l i := by
  induction l generalizing i j with
  | nil => rfl
  | cons n t ih =>
    cases j with
    | zero =>
        cases i with
        | zero => exact absurd rfl h
        | succ i' => rfl
    | succ j' =>
        cases i with
        | zero => rfl
        | succ i' => exact ih (fun he => h (by rw [he]))

theorem setCount_of_le {l : List Nat} {i : Nat} (v : Nat) (h : l.length ≤ i) :
    setCount l i v = l := by
  induction l generalizing i with
  | nil => rfl
  | cons n t ih =>
    cases i with
    | zero => simp at h
    | succ j => simp [setCount, ih (Nat.le_of_succ_le_succ h)]

theorem getCount_zero_of_le {l : List Nat} {i : Nat} (h : l.length ≤ i) :
    getCount l i = 0 := by
  induction l generalizing i with
  | nil => rfl
  | cons n t ih =>
    cases i with
    | zero => simp at h
    | succ j => exact ih (Nat.le_of_succ_le_succ h)

theorem getCount_append_left {l l2 : List Nat} {i : Nat} (h : i < l.length) :
    getCount (l ++ l2) i = getCount l i := by
  induction l generalizing i with
  | nil => simp at h
  | cons n t ih =>
    cases i with
    | zero => rfl
    | succ j => exact ih (Nat.lt_of_succ_lt_succ h)

theorem getCount_append_len (l : List Nat) (v : Nat) :
    getCount (l ++ [v]) l.length = v := by
  induction l with
  | nil => rfl
  | cons n t ih => exact ih

theorem World.strongCount_pos_lt {w : World} {i : Nat}
    (h : 0 < w.strongCount i) : i < w.counts.length :=
  getCount_pos_lt h

theorem World.strongCount_inc_self (w : World) {i : Nat}
    (h : i < w.counts.length) :
    (w.inc i).strongCount i = w.strongCount i + 1 :=
  getCount_setCount_self _ h

theorem World.strongCount_inc_ne (w : World) {i j : Nat} (h : i ≠ j) :
    (w.inc j).strongCount i = w.strongCount i :=
  getCount_setCount_ne _ h

theorem World.strongCount_dec_self (w : World) (i : Nat) :
    (w.dec i).strongCount i = w.strongCount i - 1 := by
  by_cases h : i < w.counts.length
  · exact getCount_setCount_self _ h
  · have hle : w.counts.length ≤ i := Nat.le_of_not_lt h
    show getCount (setCount w.counts i (getCount w.counts i - 1)) i
        = getCount w.counts i - 1
    rw [setCount_of_le _ hle, getCount_zero_of_le hle]

theorem World.strongCount_dec_ne (w : World) {i j : Nat} (h : i ≠ j) :
    (w.dec j).strongCount i = w.strongCount i :=
  getCount_setCount_ne _ h

theorem World.strongCount_dec_ge (w : World) (i j : Nat) :
    w.strongCount i - 1 ≤ (w.dec j).strongCount i := by
  by_cases h : i = j
  · subst h
    rw [World.strongCount_dec_self]
  · rw [World.strongCount_dec_ne w h]
    omega

theorem keep_alive_count_ge (w : World) (s : State) (c : Config) (i : Nat) :
    w.strongCount i - 1 ≤ (State.keep_alive w s c).1.strongCount i := by
  cases hl : s.latest with
  | none => simp [State.keep_alive, hl]
  | some old =>
      simpa [State.keep_alive, hl] using w.strongCount_dec_ge i old.id

/-! Helper lemmas about the key-to-weak-reference map. -/

theorem findA_mem {m : List (Key × WeakConfig)} {k : Key} {v : WeakConfig}
    (h : findA m k = some v) : (k, v) ∈ m := by
  induction m with
  | nil => simp [findA] at h
  | cons p rest ih =>
    obtain ⟨k', v'⟩ := p
    by_cases hk : k' = k
    · subst hk
      simp [findA] at h
      simp [h]
    · simp [findA, hk] at h
      simp [ih h]

theorem findA_insertA_self (m : List (Key × WeakConfig)) (k : Key)
    (v : WeakConfig) : findA (insertA m k v) k = some v := by
  induction m with
  | nil => simp [insertA, findA]
  | cons p rest ih =>
    obtain ⟨k', v'⟩ := p
    by_cases hk : k' = k <;> simp [insertA, findA, hk, ih]

theorem get_config_miss {w : World} {s : State} {k : Key}
    (h : (State.get_config w s k).2 = none) :
    State.get_config w s k = (w, none) := by
  cases hf : findA s.path_to_config k with
  | none => simp [State.get_config, hf]
  | some wk =>
      by_cases h0 : 0 < w.strongCount wk.id
      · simp [State.get_config, hf, Config.from_weak, h0] at h
      · simp [State.get_config, hf, Config.from_weak, h0]

theorem get_config_of_find {w : World} {s : State} {k : Key} {wk : WeakConfig}
    (hf : findA s.path_to_config k = some wk) (h0 : 0 < w.strongCount wk.id) :
    State.get_config w s k = (w.inc wk.id, some ⟨wk.id⟩) := by
  simp [State.get_config, hf, Config.from_weak, h0]

theorem get_config_hit {w : World} {s : State} {k : Key} {w1 : World}
    {c : Config} (h : State.get_config w s k = (w1, some c)) :
    ∃ wk, findA s.path_to_config k = some wk ∧ 0 < w.strongCount wk.id ∧
      wk.id = c.id ∧ w1 = w.inc wk.id := by
  cases hf : findA s.path_to_config k with
  | none => simp [State.get_config, hf] at h
  | some wk =>
      by_cases h0 : 0 < w.strongCount wk.id
      · rw [get_config_of_find hf h0] at h
        have hw : w.inc wk.id = w1 := congrArg Prod.fst h
        have hc : Config.mk wk.id = c := Option.some.inj (congrArg Prod.snd h)
        refine ⟨wk, rfl, h0, ?_, hw.symm⟩
        rw [← hc]
      · simp [State.get_config, hf, Config.from_weak, h0] at h

theorem get_config_alloc_miss {w : World} {s : State} {k : Key}
    (hwf : ∀ p ∈ s.path_to_config, p.2.id < w.counts.length)
    (hmiss : (State.get_config w s k).2 = none) :
    (State.get_config ⟨w.counts ++ [1]⟩ s k).2 = none := by
  cases hf : findA s.path_to_config k with
  | none => simp [State.get_config, hf]
  | some wk =>
      have hlt : wk.id < w.counts.length := hwf _ (findA_mem hf)
      have h0 : ¬ 0 < w.strongCount wk.id := by
        intro hpos
        rw [get_config_of_find hf hpos] at hmiss
        simp at hmiss
      have happ : getCount (w.counts ++ [1]) wk.id = getCount w.counts wk.id :=
        getCount_append_left hlt
      simp [State.get_config, hf, Config.from_weak, World.strongCount, happ]
      have h0' : ¬ 0 < getCount w.counts wk.id := h0
      rw [if_neg h0']

theorem installOrDiscard_of_hit (w : World) (s : State) (k : Key) (c0 : Config)
    {w1 : World} {ex : Config} (h : State.get_config w s k = (w1, some ex)) :
    Cache.installOrDiscard w s k c0 = ⟨w1.dec c0.id, s, Except.ok ex⟩ := by
  simp [Cache.installOrDiscard, h]

theorem installOrDiscard_of_miss (w : World) (s : State) (k : Key) (c0 : Config)
    (h : (State.get_config w s k).2 = none) :
    Cache.installOrDiscard w s k c0 =
      ⟨(State.keep_alive (w.inc c0.id) s c0).1,
        ⟨insertA s.path_to_config k c0.to_weak, some c0⟩, Except.ok c0⟩ := by
  simp [Cache.installOrDiscard, get_config_miss h, State.keep_alive]

theorem fetch_hit_eq (fac : Factory) {w : World} {s : State} {k : Key}
    {w1 : World} {c : Config} (h : State.get_config w s k = (w1, some c)) :
    Cache.from_cert_path fac w s k = ⟨w1, s, Except.ok c⟩ := by
  simp [Cache.from_cert_path, h]

theorem fetch_error_eq (fac : Factory) {w : World} {s : State} {k : Key}
    {e : ConstructionError} (hmiss : (State.get_config w s k).2 = none)
    (hfac : fac k = some e) :
    Cache.from_cert_path fac w s k = ⟨w, s, Except.error e⟩ := by
  simp [Cache.from_cert_path, get_config_miss hmiss, Config.from_cert_path, hfac]

theorem fetch_miss_eq (fac : Factory) {w : World} {s : State} {k : Key}
    (hmiss : (State.get_config w s k).2 = none) (hfac : fac k = none) :
    Cache.from_cert_path fac w s k =
      Cache.installOrDiscard ⟨w.counts ++ [1]⟩ s k ⟨w.counts.length⟩ := by
  simp [Cache.from_cert_path, get_config_miss hmiss, Config.from_cert_path,
    hfac, World.alloc]

theorem installOrDiscard_lookup (w : World) (s : State) (k : Key) (c0 : Config)
    (hpos : 0 < w.strongCount c0.id) (c : Config)
    (hok : (Cache.installOrDiscard w s k c0).result = Except.ok c) :
    ∃ wk, findA (Cache.installOrDiscard w s k c0).state.path_to_config k
        = some wk ∧
      0 < (Cache.installOrDiscard w s k c0).world.strongCount wk.id ∧
      wk.id = c.id := by
  cases hp : (State.get_config w s k).2 with
  | some ex =>
      have hpair : State.get_config w s k = ((State.get_config w s k).1, some ex) := by
        rw [← hp]
      obtain ⟨wk, hf, h0, hid, hw1⟩ := get_config_hit hpair
      rw [installOrDiscard_of_hit w s k c0 hpair] at hok ⊢
      simp at hok
      refine ⟨wk, hf, ?_, by rw [hid, hok]⟩
      show 0 < (((State.get_config w s k).1).dec c0.id).strongCount wk.id
      rw [hw1]
      have hge := (w.inc wk.id).strongCount_dec_ge wk.id c0.id
      rw [w.strongCount_inc_self (World.strongCount_pos_lt h0)] at hge
      omega
  | none =>
      rw [installOrDiscard_of_miss w s k c0 hp] at hok ⊢
      simp at hok
      subst hok
      refine ⟨c0.to_weak, findA_insertA_self _ _ _, ?_, rfl⟩
      have hlt : c0.id < w.counts.length := World.strongCount_pos_lt hpos
      have hinc := w.strongCount_inc_self hlt
      have hka := keep_alive_count_ge (w.inc c0.id) s c0 c0.id
      show 0 < (State.keep_alive (w.inc c0.id) s c0).1.strongCount c0.to_weak.id
      simp only [Config.to_weak]
      omega

theorem fetch_ok_lookup (fac : Factory) (w : World) (s : State) (k : Key)
    (c : Config)
    (h : (Cache.from_cert_path fac w s k).result = Except.ok c) :
    ∃ wk, findA (Cache.from_cert_path fac w s k).state.path_to_config k
        = some wk ∧
      0 < (Cache.from_cert_path fac w s k).world.strongCount wk.id ∧
      wk.id = c.id := by
  cases hp : (State.get_config w s k).2 with
  | some c1 =>
      have hpair : State.get_config w s k
          = ((State.get_config w s k).1, some c1) := by rw [← hp]
      obtain ⟨wk, hf, h0, hid, hw1⟩ := get_config_hit hpair
      rw [fetch_hit_eq fac hpair] at h ⊢
      simp at h
      refine ⟨wk, hf, ?_, by rw [hid, h]⟩
      show 0 < ((State.get_config w s k).1).strongCount wk.id
      rw [hw1, w.strongCount_inc_self (World.strongCount_pos_lt h0)]
      omega
  | none =>
      cases hfac : fac k with
      | some e =>
          rw [fetch_error_eq fac hp hfac] at h
          simp at h
      | none =>
          rw [fetch_miss_eq fac hp hfac] at h ⊢
          refine installOrDiscard_lookup _ s k _ ?_ c h
          show 0 < getCount (w.counts ++ [1]) w.counts.length
          rw [getCount_append_len]
          omega

/-! The claims. -/

/-- C1: In the write-locked section of fetch (`Cache::from_cert_path`),
entered after a miss with the freshly built handle `c`: if re-running
`get(k)` finds a live entry, the call returns that existing handle, leaves
the cache state unchanged, and drops the freshly built handle (its strong
count is decremented, so its Resource is destroyed independently of the
cache); otherwise the new handle is stored in the keep-alive slot, its weak
reference is inserted into the mapping at `k`, and the new handle is
returned. The state argument is arbitrary, covering a concurrent install
between the probe and the write lock. -/
theorem install_race_arbitration (w : World) (s : State) (k : Key)
    (c : Config) :
    (∀ w1 ex, State.get_config w s k = (w1, some ex) →
      (Cache.installOrDiscard w s k c).result = Except.ok ex ∧
      (Cache.installOrDiscard w s k c).state = s ∧
      (Cache.installOrDiscard w s k c).world.strongCount c.id
        = w1.strongCount c.id - 1) ∧
    (∀ w1, State.get_config w s k = (w1, none) →
      (Cache.installOrDiscard w s k c).result = Except.ok c ∧
      (Cache.installOrDiscard w s k c).state.latest = some c ∧
      findA (Cache.installOrDiscard w s k c).state.path_to_config k
        = some c.to_weak) := by
  constructor
  · intro w1 ex h
    rw [installOrDiscard_of_hit w s k c h]
    exact ⟨rfl, rfl, World.strongCount_dec_self w1 c.id⟩
  · intro w1 h
    have h2 : (State.get_config w s k).2 = none := by rw [h]
    rw [installOrDiscard_of_miss w s k c h2]
    exact ⟨rfl, rfl, findA_insertA_self _ _ _⟩

/-- Witness for `install_race_arbitration`: the re-probe finds a live entry
for key `none`, so the existing handle on resource 0 is returned, the state
is untouched, and the freshly built handle on resource 1 is dropped to
strong count 0. -/
theorem install_race_arbitration_witness :
    (Cache.installOrDiscard ⟨[1, 1]⟩ ⟨[(none, ⟨0⟩)], none⟩ none ⟨1⟩).result
        = Except.ok ⟨0⟩ ∧
    (Cache.installOrDiscard ⟨[1, 1]⟩ ⟨[(none, ⟨0⟩)], none⟩ none ⟨1⟩).state
        = ⟨[(none, ⟨0⟩)], none⟩ ∧
    (Cache.installOrDiscard ⟨[1, 1]⟩ ⟨[(none, ⟨0⟩)], none⟩ none
        ⟨1⟩).world.strongCount 1 = 0 := by
  have h := (install_race_arbitration ⟨[1, 1]⟩ ⟨[(none, ⟨0⟩)], none⟩ none
      ⟨1⟩).1 ⟨[2, 1]⟩ ⟨0⟩ (by decide)
  exact ⟨h.1, h.2.1, h.2.2.trans (by decide)⟩

/-- C2 counterexample: fetch `None`, `Some "a"`, `Some "b"` (three misses),
then fetch `None` again while all handles are held. The last fetch succeeds
and returns resource 0, yet the keep-alive slot still holds resource 2
(installed by the `"b"` miss). So the claim that after every successful
fetch, hit or miss, `latest` holds exactly the returned Resource is false
at this input. -/
theorem latest_ignores_hit_cex :
    runHitNone.result = Except.ok ⟨0⟩ ∧
    runHitNone.state.latest = some ⟨2⟩ ∧
    runHitNone.state.latest ≠ some ⟨0⟩ := by
  decide

/-- C2 (amended): the keep-alive slot tracks installs, not hits. For a
well-formed state (every weak reference in the mapping names an allocated
resource), a fetch that hits leaves `latest` exactly as it was, while a
fetch that misses and returns a freshly constructed handle leaves `latest`
holding exactly that handle (and nothing else: the slot is a single
option). -/
theorem latest_tracks_install (fac : Factory) (w : World) (s : State)
    (k : Key)
    (hwf : ∀ p ∈ s.path_to_config, p.2.id < w.counts.length) :
    (∀ w1 c, State.get_config w s k = (w1, some c) →
      (Cache.from_cert_path fac w s k).state.latest = s.latest) ∧
    (∀ c, (State.get_config w s k).2 = none →
      (Cache.from_cert_path fac w s k).result = Except.ok c →
      (Cache.from_cert_path fac w s k).state.latest = some c) := by
  constructor
  · intro w1 c h
    rw [fetch_hit_eq fac h]
  · intro c hmiss hok
    cases hfac : fac k with
    | some e =>
        rw [fetch_error_eq fac hmiss hfac] at hok
        simp at hok
    | none =>
        rw [fetch_miss_eq fac hmiss hfac] at hok ⊢
        have hm2 := get_config_alloc_miss hwf hmiss
        rw [installOrDiscard_of_miss _ _ _ _ hm2] at hok ⊢
        simp at hok
        subst hok
        rfl

/-- Witness for `latest_tracks_install`: on a well-formed one-entry state,
fetching the absent key `Some "x"` installs resource 1 and leaves it in the
keep-alive slot. -/
theorem latest_tracks_install_witness :
    (Cache.from_cert_path facOk ⟨[1]⟩ ⟨[(none, ⟨0⟩)], none⟩
        (some "x")).state.latest = some ⟨1⟩ :=
  (latest_tracks_install facOk ⟨[1]⟩ ⟨[(none, ⟨0⟩)], none⟩ (some "x")
      (by decide)).2 ⟨1⟩ (by decide) (by decide)

/-- C3: when the probe misses and the factory fails for the key, fetch
returns the construction error verbatim and the heap, the mapping and the
keep-alive slot are all exactly what they were before the call. -/
theorem error_propagation_unchanged (fac : Factory) (w : World) (s : State)
    (k : Key) (e : ConstructionError)
    (hmiss : (State.get_config w s k).2 = none) (hfail : fac k = some e) :
    Cache.from_cert_path fac w s k = ⟨w, s, Except.error e⟩ :=
  fetch_error_eq fac hmiss hfail

/-- Witness for `error_propagation_unchanged`: a failing factory on the
empty cache returns its error and changes nothing. -/
theorem error_propagation_unchanged_witness :
    Cache.from_cert_path (fun _ => some ⟨7⟩) World.empty State.empty none
      = ⟨World.empty, State.empty, Except.error ⟨7⟩⟩ :=
  error_propagation_unchanged (fun _ => some ⟨7⟩) World.empty State.empty
    none ⟨7⟩ (by decide) rfl

/-- C4: garbage collection removes exactly the mapping entries whose weak
reference has strong count zero at the time of the call, and retains
precisely those whose referent is still alive: an entry survives if and
only if it was present and its strong count is nonzero. -/
theorem garbage_collect_exact (w : World) (s : State) (k : Key)
    (wk : WeakConfig) :
    (k, wk) ∈ (State.garbage_collect w s).path_to_config ↔
      (k, wk) ∈ s.path_to_config ∧ w.strongCount wk.id ≠ 0 := by
  simp [State.garbage_collect, List.mem_filter]

/-- C5: a successful fetch, while the returned handle is still held, makes
a subsequent fetch of the same key on the shared state succeed with a
handle to the identical Resource, without invoking the factory: the second
fetch is quantified over an arbitrary factory, so its result cannot depend
on construction. Cache clones share the same state object, so this covers
fetches through any clone. -/
theorem fetch_sharing (fac fac2 : Factory) (w : World) (s : State) (k : Key)
    (c : Config)
    (h : (Cache.from_cert_path fac w s k).result = Except.ok c)
    (hheld : 0 < (Cache.from_cert_path fac w s k).world.strongCount c.id) :
    ∃ c2, (Cache.from_cert_path fac2 (Cache.from_cert_path fac w s k).world
        (Cache.from_cert_path fac w s k).state k).result = Except.ok c2 ∧
      c2.id = c.id := by
  obtain ⟨wk, hfind, hpos, hid⟩ := fetch_ok_lookup fac w s k c h
  refine ⟨⟨wk.id⟩, ?_, hid⟩
  rw [fetch_hit_eq fac2 (get_config_of_find hfind hpos)]

/-- Witness for `fetch_sharing`: fetch `None` twice on a fresh cache; the
second fetch returns a handle on the same resource 0. -/
theorem fetch_sharing_witness :
    ∃ c2, (Cache.from_cert_path facOk
        (Cache.from_cert_path facOk World.empty State.empty none).world
        (Cache.from_cert_path facOk World.empty State.empty none).state
        none).result = Except.ok c2 ∧ c2.id = (Config.mk 0).id :=
  fetch_sharing facOk facOk World.empty State.empty none ⟨0⟩ (by decide)
    (by decide)

/-- C6: fetching `None`, then `Some "a"`, then `Some "b"` on a fresh cache
while holding all three handles yields strong counts 1, 1, 2 (only the most
recent install is also held by the keep-alive slot); after dropping the
`None` handle, garbage collection leaves exactly the entries for `Some "a"`
and `Some "b"` in the mapping. -/
theorem scene_lifetimes :
    run1.result = Except.ok ⟨0⟩ ∧ run2.result = Except.ok ⟨1⟩ ∧
    run3.result = Except.ok ⟨2⟩ ∧
    run3.world.strongCount 0 = 1 ∧ run3.world.strongCount 1 = 1 ∧
    run3.world.strongCount 2 = 2 ∧
    runGC.path_to_config = [(some "a", ⟨1⟩), (some "b", ⟨2⟩)] := by
  decide

/-- C7: upgrading a weak reference (`Config::from_weak`) succeeds exactly
when the strong count of the referenced Resource is positive at the call,
so it returns none once the last strong holder is dropped; the upgrade
allocates no new Resource (the heap keeps the same allocations), and any
handle it returns names the very Resource the weak reference names.
`to_weak` takes no heap at all, so it cannot construct anything. -/
theorem weak_upgrade_semantics (w : World) (wk : WeakConfig) :
    ((Config.from_weak w wk).2.isSome ↔ 0 < w.strongCount wk.id) ∧
    (Config.from_weak w wk).1.counts.length = w.counts.length ∧
    (∀ c, (Config.from_weak w wk).2 = some c → c.id = wk.id) := by
  refine ⟨?_, ?_, ?_⟩
  · by_cases h : 0 < w.strongCount wk.id <;> simp [Config.from_weak, h]
  · by_cases h : 0 < w.strongCount wk.id <;>
      simp [Config.from_weak, h, World.inc, length_setCount]
  · intro c hc
    by_cases h : 0 < w.strongCount wk.id
    · simp [Config.from_weak, h] at hc
      rw [← hc]
    · simp [Config.from_weak, h] at hc

/-- Witness for `weak_upgrade_semantics`: on a heap with one live resource,
upgrading the weak reference to resource 0 yields a handle on resource 0. -/
theorem weak_upgrade_semantics_witness :
    (0 < World.strongCount ⟨[1]⟩ 0) ∧ (Config.mk 0).id = 0 :=
  ⟨by decide, (weak_upgrade_semantics ⟨[1]⟩ ⟨0⟩).2.2 ⟨0⟩ (by decide)⟩

/-- C8: the lock-event trace of fetch shows that the factory construction
runs while no cache lock is held (the trace before the factory call
balances every lock acquisition with its release), that a fetch performs at
most one construction, and that the hit path is exactly one read-lock
acquisition and release: it takes no write lock and performs no
construction, so a hit never waits on another thread's construction. -/
theorem fetch_lock_discipline (fac : Factory) (w : World) (s : State)
    (k : Key) :
    locksHeld ((Cache.fetchEvents fac w s k).takeWhile
        (fun e => e != LockEv.factoryCall)) = 0 ∧
    (Cache.fetchEvents fac w s k).count LockEv.factoryCall ≤ 1 ∧
    (∀ w1 c, State.get_config w s k = (w1, some c) →
      Cache.fetchEvents fac w s k = [LockEv.readAcq, LockEv.readRel]) := by
  cases hp : (State.get_config w s k).2 with
  | some c1 =>
      obtain ⟨w1, hw1⟩ : ∃ w1, State.get_config w s k = (w1, some c1) :=
        ⟨(State.get_config w s k).1, by rw [← hp]⟩
      have he : Cache.fetchEvents fac w s k
          = [LockEv.readAcq, LockEv.readRel] := by
        simp [Cache.fetchEvents, hw1]
      rw [he]
      exact ⟨by decide, by decide, fun w2 c hh => rfl⟩
  | none =>
      have hpair := get_config_miss hp
      cases hfac : fac k with
      | some e =>
          have he : Cache.fetchEvents fac w s k
              = [LockEv.readAcq, LockEv.readRel, LockEv.factoryCall] := by
            simp [Cache.fetchEvents, hpair, hfac]
          rw [he]
          refine ⟨by decide, by decide, ?_⟩
          intro w1 c hh
          rw [hpair] at hh
          simp at hh
      | none =>
          have he : Cache.fetchEvents fac w s k
              = [LockEv.readAcq, LockEv.readRel, LockEv.factoryCall,
                  LockEv.writeAcq, LockEv.writeRel] := by
            simp [Cache.fetchEvents, hpair, hfac]
          rw [he]
          refine ⟨by decide, by decide, ?_⟩
          intro w1 c hh
          rw [hpair] at hh
          simp at hh

/-- Witness for `fetch_lock_discipline`: a hit on a one-entry cache
produces exactly the read-acquire, read-release trace. -/
theorem fetch_lock_discipline_witness :
    Cache.fetchEvents facOk ⟨[1]⟩ ⟨[(none, ⟨0⟩)], none⟩ none
      = [LockEv.readAcq, LockEv.readRel] :=
  (fetch_lock_discipline facOk ⟨[1]⟩ ⟨[(none, ⟨0⟩)], none⟩ none).2.2
    ⟨[2]⟩ ⟨0⟩ (by decide)

/-- C9: when the read probe finds a live entry, fetch returns that handle
via the fast path and the cache state is returned completely unchanged: the
mapping is untouched and the keep-alive slot `latest` keeps whatever it
held before the call, in particular it is not updated to the hit
Resource. -/
theorem hit_path_frame (fac : Factory) (w : World) (s : State) (k : Key)
    (w1 : World) (c : Config)
    (h : State.get_config w s k = (w1, some c)) :
    Cache.from_cert_path fac w s k = ⟨w1, s, Except.ok c⟩ :=
  fetch_hit_eq fac h

/-- Witness for `hit_path_frame`: a hit on key `none` leaves the state,
including a keep-alive slot holding a different resource 5, untouched. -/
theorem hit_path_frame_witness :
    Cache.from_cert_path facOk ⟨[1]⟩ ⟨[(none, ⟨0⟩)], some ⟨5⟩⟩ none
      = ⟨⟨[2]⟩, ⟨[(none, ⟨0⟩)], some ⟨5⟩⟩, Except.ok ⟨0⟩⟩ :=
  hit_path_frame facOk ⟨[1]⟩ ⟨[(none, ⟨0⟩)], some ⟨5⟩⟩ none ⟨[2]⟩ ⟨0⟩
    (by decide)

/-- C10: garbage collection never modifies the keep-alive slot; every entry
it retains is literally an entry of the original mapping (same key, same
stored weak reference); and an entry whose weak reference names the
Resource held by `latest` — which, being held, has positive strong count —
always survives the collection. -/
theorem garbage_collect_frame (w : World) (s : State) :
    (State.garbage_collect w s).latest = s.latest ∧
    (∀ p, p ∈ (State.garbage_collect w s).path_to_config →
      p ∈ s.path_to_config) ∧
    (∀ k wk c, s.latest = some c → (k, wk) ∈ s.path_to_config →
      wk.id = c.id → 0 < w.strongCount c.id →
      (k, wk) ∈ (State.garbage_collect w s).path_to_config) := by
  refine ⟨rfl, ?_, ?_⟩
  · intro p hp
    simp [State.garbage_collect, List.mem_filter] at hp
    exact hp.1
  · intro k wk c hl hm hid hpos
    simp [State.garbage_collect, List.mem_filter]
    refine ⟨hm, ?_⟩
    rw [hid]
    omega

/-- Witness for `garbage_collect_frame`: the entry for the resource held by
the keep-alive slot survives collection. -/
theorem garbage_collect_frame_witness :
    (none, (⟨0⟩ : WeakConfig)) ∈
      (State.garbage_collect ⟨[1]⟩ ⟨[(none, ⟨0⟩)], some ⟨0⟩⟩).path_to_config :=
  (garbage_collect_frame ⟨[1]⟩ ⟨[(none, ⟨0⟩)], some ⟨0⟩⟩).2.2 none ⟨0⟩ ⟨0⟩
    rfl (by decide) rfl (by decide)
